import Mathlib

/-!
Shallow embedding of the hierarchical aggregation engine of `app.py`
(interactive accounting mind-map).  The data model (`LEAF_NODES`, `TREE`,
`ROOTS`), the recursive roll-up `total`, the computed-node enumeration and
the visual-weight computation of the Dash callback `update_graph_and_totals`
are translated into executable Lean definitions; leaf values are modelled as
integers (Python ints are exact) and the weight ratio `v / max_val` as a
rational number.
-/

namespace AIMSharing

/-- The leaf accounts with their default slider values, in declaration order
(`LEAF_NODES` in app.py). -/
def LEAF_NODES : List (String × ℤ) :=
  [("Cash", 10000), ("AR", 12000), ("Inventory", 8000), ("PPE", 40000),
   ("Intangibles", 5000),
   ("AP", 7000), ("NotesPayable", 6000), ("LongTermDebt", 20000),
   ("OperatingIncome", 15000), ("NonOperatingIncome", 3000),
   ("COGS", 9000), ("SGA", 4000), ("Depreciation", 2000), ("InterestExp", 1000)]

/-- The leaf account names, in declaration order (the keys of `LEAF_NODES`). -/
def leafNames : List String :=
  ["Cash", "AR", "Inventory", "PPE", "Intangibles",
   "AP", "NotesPayable", "LongTermDebt",
   "OperatingIncome", "NonOperatingIncome",
   "COGS", "SGA", "Depreciation", "InterestExp"]

/-- Dictionary lookup in `TREE` (app.py lines 36-48): the parent/child
relationships for automatic roll-ups. -/
def treeChildren (node : String) : Option (List String) :=
  if node = "CurrentAssets" then some ["Cash", "AR", "Inventory"]
  else if node = "NonCurrentAssets" then some ["PPE", "Intangibles"]
  else if node = "Assets" then some ["CurrentAssets", "NonCurrentAssets"]
  else if node = "CurrentLiabilities" then some ["AP", "NotesPayable"]
  else if node = "NonCurrentLiabilities" then some ["LongTermDebt"]
  else if node = "Liabilities" then some ["CurrentLiabilities", "NonCurrentLiabilities"]
  else if node = "Income" then some ["OperatingIncome", "NonOperatingIncome"]
  else if node = "Expenses" then some ["COGS", "SGA", "Depreciation", "InterestExp"]
  else none

/-- `ROOTS` in app.py: the four top-level branch roots. -/
def ROOTS : List String := ["Assets", "Liabilities", "Income", "Expenses"]

/-- The roll-up helper `total` of `update_graph_and_totals` (app.py lines
187-198), fuel-indexed to make the recursion structural: a leaf returns its
value from the snapshot, a `TREE` parent returns the sum of its children's
totals, `Equity` is `assets + income - expenses - liabilities`, and any
other name returns 0.  Fuel 4 covers the deepest call chain
(`Equity -> Assets -> CurrentAssets -> Cash`); `totalAux_stable` below
proves any larger fuel computes the same value. -/
def totalAux : ℕ → (String → ℤ) → String → ℤ
  | 0, _, _ => 0
  | n + 1, v, node =>
    if node ∈ leafNames then v node
    else
      match treeChildren node with
      | some children => (children.map (totalAux n v)).sum
      | none =>
        if node = "Equity" then
          totalAux n v "Assets" + totalAux n v "Income"
            - totalAux n v "Expenses" - totalAux n v "Liabilities"
        else 0

/-- `total(node)` of app.py, at sufficient fuel for the fixed hierarchy. -/
def total (v : String → ℤ) (node : String) : ℤ := totalAux 4 v node

/-- `computed_nodes = sorted(all_nodes - LEAF_NODES.keys() - {"Equation"})`
(app.py line 116): the `TREE` parents plus `Equity`, sorted; the display-only
`Equation` node is removed. -/
def computedNodes : List String :=
  ["Assets", "CurrentAssets", "CurrentLiabilities", "Equity", "Expenses",
   "Income", "Liabilities", "NonCurrentAssets", "NonCurrentLiabilities"]

/-- `computed_vals = {nid: total(nid) for nid in computed_nodes}`
(app.py line 201). -/
def computedVals (v : String → ℤ) : List (String × ℤ) :=
  computedNodes.map fun n => (n, total v n)

/-- All account names that receive a value in `{**leaf_vals, **computed_vals}`
(app.py line 208): the leaves followed by the computed nodes. -/
def accountNames : List String := leafNames ++ computedNodes

/-- `all_values = list(leaf_vals.values()) + list(computed_vals.values())`
(app.py line 204). -/
def allValues (v : String → ℤ) : List ℤ :=
  leafNames.map v ++ computedNodes.map (total v)

/-- Python `max` over a non-empty list: fold `max` over the tail starting
from the head ( `[]` never occurs in this program; 0 is a dummy). -/
def pyMax : List ℤ → ℤ
  | [] => 0
  | x :: xs => xs.foldl max x

/-- `max_val = max(all_values) or 1` (app.py line 205): Python `or` replaces
a falsy value, i.e. 0, by 1; any non-zero maximum is kept. -/
def maxVal (v : String → ℤ) : ℤ :=
  if pyMax (allValues v) = 0 then 1 else pyMax (allValues v)

/-- The normalized visual weight `v / max_val` from
`size = 30 + (v / max_val) * 70` (app.py line 209), as an exact rational. -/
def weight (v : String → ℤ) (node : String) : ℚ :=
  (total v node : ℚ) / (maxVal v : ℚ)


lemma totalAux_leaf (v : String → ℤ) (n : String) (hn : n ∈ leafNames) :
    ∀ m, 1 ≤ m → totalAux m v n = v n := by
  intro m hm
  obtain ⟨m1, rfl⟩ : ∃ m1, m = m1 + 1 := ⟨m - 1, by omega⟩
  simp [totalAux, hn]

lemma totalAux_CurrentAssets (v : String → ℤ) :
    ∀ m, 2 ≤ m → totalAux m v "CurrentAssets" = v "Cash" + v "AR" + v "Inventory" := by
  intro m hm
  obtain ⟨m1, rfl⟩ : ∃ m1, m = m1 + 1 := ⟨m - 1, by omega⟩
  obtain ⟨m2, rfl⟩ : ∃ m2, m1 = m2 + 1 := ⟨m1 - 1, by omega⟩
  simp [totalAux, treeChildren, leafNames]
  ring

lemma totalAux_NonCurrentAssets (v : String → ℤ) :
    ∀ m, 2 ≤ m → totalAux m v "NonCurrentAssets" = v "PPE" + v "Intangibles" := by
  intro m hm
  obtain ⟨m1, rfl⟩ : ∃ m1, m = m1 + 1 := ⟨m - 1, by omega⟩
  obtain ⟨m2, rfl⟩ : ∃ m2, m1 = m2 + 1 := ⟨m1 - 1, by omega⟩
  simp [totalAux, treeChildren, leafNames]

lemma totalAux_CurrentLiabilities (v : String → ℤ) :
    ∀ m, 2 ≤ m → totalAux m v "CurrentLiabilities" = v "AP" + v "NotesPayable" := by
  intro m hm
  obtain ⟨m1, rfl⟩ : ∃ m1, m = m1 + 1 := ⟨m - 1, by omega⟩
  obtain ⟨m2, rfl⟩ : ∃ m2, m1 = m2 + 1 := ⟨m1 - 1, by omega⟩
  simp [totalAux, treeChildren, leafNames]

lemma totalAux_NonCurrentLiabilities (v : String → ℤ) :
    ∀ m, 2 ≤ m → totalAux m v "NonCurrentLiabilities" = v "LongTermDebt" := by
  intro m hm
  obtain ⟨m1, rfl⟩ : ∃ m1, m = m1 + 1 := ⟨m - 1, by omega⟩
  obtain ⟨m2, rfl⟩ : ∃ m2, m1 = m2 + 1 := ⟨m1 - 1, by omega⟩
  simp [totalAux, treeChildren, leafNames]

lemma totalAux_Income (v : String → ℤ) :
    ∀ m, 2 ≤ m → totalAux m v "Income" = v "OperatingIncome" + v "NonOperatingIncome" := by
  intro m hm
  obtain ⟨m1, rfl⟩ : ∃ m1, m = m1 + 1 := ⟨m - 1, by omega⟩
  obtain ⟨m2, rfl⟩ : ∃ m2, m1 = m2 + 1 := ⟨m1 - 1, by omega⟩
  simp [totalAux, treeChildren, leafNames]

lemma totalAux_Expenses (v : String → ℤ) :
    ∀ m, 2 ≤ m →
      totalAux m v "Expenses" = v "COGS" + v "SGA" + v "Depreciation" + v "InterestExp" := by
  intro m hm
  obtain ⟨m1, rfl⟩ : ∃ m1, m = m1 + 1 := ⟨m - 1, by omega⟩
  obtain ⟨m2, rfl⟩ : ∃ m2, m1 = m2 + 1 := ⟨m1 - 1, by omega⟩
  simp [totalAux, treeChildren, leafNames]
  ring

lemma totalAux_Assets (v : String → ℤ) :
    ∀ m, 3 ≤ m →
      totalAux m v "Assets" =
        v "Cash" + v "AR" + v "Inventory" + v "PPE" + v "Intangibles" := by
  intro m hm
  obtain ⟨m1, rfl⟩ : ∃ m1, m = m1 + 1 := ⟨m - 1, by omega⟩
  have h1 := totalAux_CurrentAssets v m1 (by omega)
  have h2 := totalAux_NonCurrentAssets v m1 (by omega)
  simp [totalAux, treeChildren, leafNames, h1, h2]
  ring

lemma totalAux_Liabilities (v : String → ℤ) :
    ∀ m, 3 ≤ m →
      totalAux m v "Liabilities" = v "AP" + v "NotesPayable" + v "LongTermDebt" := by
  intro m hm
  obtain ⟨m1, rfl⟩ : ∃ m1, m = m1 + 1 := ⟨m - 1, by omega⟩
  have h1 := totalAux_CurrentLiabilities v m1 (by omega)
  have h2 := totalAux_NonCurrentLiabilities v m1 (by omega)
  simp [totalAux, treeChildren, leafNames, h1, h2]

lemma totalAux_Equity (v : String → ℤ) :
    ∀ m, 4 ≤ m →
      totalAux m v "Equity" =
        (v "Cash" + v "AR" + v "Inventory" + v "PPE" + v "Intangibles")
          + (v "OperatingIncome" + v "NonOperatingIncome")
          - (v "COGS" + v "SGA" + v "Depreciation" + v "InterestExp")
          - (v "AP" + v "NotesPayable" + v "LongTermDebt") := by
  intro m hm
  obtain ⟨m1, rfl⟩ : ∃ m1, m = m1 + 1 := ⟨m - 1, by omega⟩
  have h1 := totalAux_Assets v m1 (by omega)
  have h2 := totalAux_Income v m1 (by omega)
  have h3 := totalAux_Expenses v m1 (by omega)
  have h4 := totalAux_Liabilities v m1 (by omega)
  simp [totalAux, treeChildren, leafNames, h1, h2, h3, h4]

/-- Fuel stabilization: any fuel of at least 4 computes `total`. -/
lemma totalAux_stable (v : String → ℤ) (node : String) :
    ∀ m, 4 ≤ m → totalAux m v node = total v node := by
  intro m hm
  unfold total
  by_cases hleaf : node ∈ leafNames
  · rw [totalAux_leaf v node hleaf m (by omega), totalAux_leaf v node hleaf 4 (by omega)]
  · cases heq : treeChildren node with
    | some l =>
      unfold treeChildren at heq
      split_ifs at heq with h1 h2 h3 h4 h5 h6 h7 h8
      · subst h1
        rw [totalAux_CurrentAssets v m (by omega), totalAux_CurrentAssets v 4 (by omega)]
      · subst h2
        rw [totalAux_NonCurrentAssets v m (by omega), totalAux_NonCurrentAssets v 4 (by omega)]
      · subst h3
        rw [totalAux_Assets v m (by omega), totalAux_Assets v 4 (by omega)]
      · subst h4
        rw [totalAux_CurrentLiabilities v m (by omega),
          totalAux_CurrentLiabilities v 4 (by omega)]
      · subst h5
        rw [totalAux_NonCurrentLiabilities v m (by omega),
          totalAux_NonCurrentLiabilities v 4 (by omega)]
      · subst h6
        rw [totalAux_Liabilities v m (by omega), totalAux_Liabilities v 4 (by omega)]
      · subst h7
        rw [totalAux_Income v m (by omega), totalAux_Income v 4 (by omega)]
      · subst h8
        rw [totalAux_Expenses v m (by omega), totalAux_Expenses v 4 (by omega)]
    | none =>
      by_cases he : node = "Equity"
      · subst he
        rw [totalAux_Equity v m (by omega), totalAux_Equity v 4 (by omega)]
      · obtain ⟨m1, rfl⟩ : ∃ m1, m = m1 + 1 := ⟨m - 1, by omega⟩
        simp [totalAux, hleaf, heq, he]


/-! ### Closed forms of `total` at the computed nodes -/

lemma total_leaf (v : String → ℤ) (n : String) (hn : n ∈ leafNames) : total v n = v n :=
  totalAux_leaf v n hn 4 (by omega)

lemma total_CurrentAssets (v : String → ℤ) :
    total v "CurrentAssets" = v "Cash" + v "AR" + v "Inventory" :=
  totalAux_CurrentAssets v 4 (by omega)

lemma total_NonCurrentAssets (v : String → ℤ) :
    total v "NonCurrentAssets" = v "PPE" + v "Intangibles" :=
  totalAux_NonCurrentAssets v 4 (by omega)

lemma total_CurrentLiabilities (v : String → ℤ) :
    total v "CurrentLiabilities" = v "AP" + v "NotesPayable" :=
  totalAux_CurrentLiabilities v 4 (by omega)

lemma total_NonCurrentLiabilities (v : String → ℤ) :
    total v "NonCurrentLiabilities" = v "LongTermDebt" :=
  totalAux_NonCurrentLiabilities v 4 (by omega)

lemma total_Income (v : String → ℤ) :
    total v "Income" = v "OperatingIncome" + v "NonOperatingIncome" :=
  totalAux_Income v 4 (by omega)

lemma total_Expenses (v : String → ℤ) :
    total v "Expenses" = v "COGS" + v "SGA" + v "Depreciation" + v "InterestExp" :=
  totalAux_Expenses v 4 (by omega)

lemma total_Assets (v : String → ℤ) :
    total v "Assets" = v "Cash" + v "AR" + v "Inventory" + v "PPE" + v "Intangibles" :=
  totalAux_Assets v 4 (by omega)

lemma total_Liabilities (v : String → ℤ) :
    total v "Liabilities" = v "AP" + v "NotesPayable" + v "LongTermDebt" :=
  totalAux_Liabilities v 4 (by omega)

lemma total_Equity (v : String → ℤ) :
    total v "Equity" =
      (v "Cash" + v "AR" + v "Inventory" + v "PPE" + v "Intangibles")
        + (v "OperatingIncome" + v "NonOperatingIncome")
        - (v "COGS" + v "SGA" + v "Depreciation" + v "InterestExp")
        - (v "AP" + v "NotesPayable" + v "LongTermDebt") :=
  totalAux_Equity v 4 (by omega)

/-! ### Facts about `pyMax` (Python `max` on a non-empty list) -/

lemma foldl_max_le_init (xs : List ℤ) (a : ℤ) : a ≤ xs.foldl max a := by
  induction xs generalizing a with
  | nil => simp [List.foldl]
  | cons x xs ih => exact le_trans (le_max_left a x) (ih (max a x))

lemma foldl_max_le_mem (xs : List ℤ) (a x : ℤ) (hx : x ∈ xs) : x ≤ xs.foldl max a := by
  induction xs generalizing a with
  | nil => cases hx
  | cons y ys ih =>
    rcases List.mem_cons.1 hx with rfl | h
    · exact le_trans (le_max_right a x) (foldl_max_le_init ys (max a x))
    · exact ih (max a y) h

lemma foldl_max_eq_or_mem (xs : List ℤ) (a : ℤ) : xs.foldl max a = a ∨ xs.foldl max a ∈ xs := by
  induction xs generalizing a with
  | nil => left; rfl
  | cons y ys ih =>
    rcases ih (max a y) with h | h
    · rcases max_choice a y with h2 | h2
      · left; rw [List.foldl_cons, h, h2]
      · right; rw [List.foldl_cons, h, h2]; exact List.mem_cons_self y ys
    · right; exact List.mem_cons_of_mem y h

lemma le_pyMax (l : List ℤ) (x : ℤ) (hx : x ∈ l) : x ≤ pyMax l := by
  cases l with
  | nil => cases hx
  | cons y ys =>
    rcases List.mem_cons.1 hx with rfl | h
    · exact foldl_max_le_init ys x
    · exact foldl_max_le_mem ys y x h

lemma pyMax_mem (l : List ℤ) (hl : l ≠ []) : pyMax l ∈ l := by
  cases l with
  | nil => exact absurd rfl hl
  | cons y ys =>
    rcases foldl_max_eq_or_mem ys y with h | h
    · rw [pyMax, h]; exact List.mem_cons_self y ys
    · exact List.mem_cons_of_mem y h

/-! ### `allValues` is the list of every account's total -/

lemma allValues_eq (v : String → ℤ) : allValues v = accountNames.map (total v) := by
  unfold allValues accountNames
  have h : leafNames.map v = leafNames.map (total v) :=
    List.map_congr_left fun n hn => (total_leaf v n hn).symm
  rw [List.map_append, h]

lemma mem_allValues (v : String → ℤ) (x : ℤ) :
    x ∈ allValues v ↔ ∃ n ∈ accountNames, total v n = x := by
  rw [allValues_eq]
  exact List.mem_map

lemma allValues_ne_nil (v : String → ℤ) : allValues v ≠ [] := by
  simp [allValues, leafNames]


lemma total_nonneg (v : String → ℤ) (hv : ∀ n ∈ leafNames, 0 ≤ v n)
    (he : 0 ≤ total v "Equity") : ∀ n ∈ accountNames, 0 ≤ total v n := by
  have h1 := hv "Cash" (by decide)
  have h2 := hv "AR" (by decide)
  have h3 := hv "Inventory" (by decide)
  have h4 := hv "PPE" (by decide)
  have h5 := hv "Intangibles" (by decide)
  have h6 := hv "AP" (by decide)
  have h7 := hv "NotesPayable" (by decide)
  have h8 := hv "LongTermDebt" (by decide)
  have h9 := hv "OperatingIncome" (by decide)
  have h10 := hv "NonOperatingIncome" (by decide)
  have h11 := hv "COGS" (by decide)
  have h12 := hv "SGA" (by decide)
  have h13 := hv "Depreciation" (by decide)
  have h14 := hv "InterestExp" (by decide)
  intro n hn
  fin_cases hn <;>
    first
      | exact he
      | (rw [total_leaf v _ (by decide)]; assumption)
      | (simp only [total_CurrentAssets, total_NonCurrentAssets, total_Assets,
          total_CurrentLiabilities, total_NonCurrentLiabilities, total_Liabilities,
          total_Income, total_Expenses]; positivity)

lemma total_zero (v : String → ℤ) (hv : ∀ n ∈ leafNames, v n = 0) :
    ∀ n ∈ accountNames, total v n = 0 := by
  have h1 := hv "Cash" (by decide)
  have h2 := hv "AR" (by decide)
  have h3 := hv "Inventory" (by decide)
  have h4 := hv "PPE" (by decide)
  have h5 := hv "Intangibles" (by decide)
  have h6 := hv "AP" (by decide)
  have h7 := hv "NotesPayable" (by decide)
  have h8 := hv "LongTermDebt" (by decide)
  have h9 := hv "OperatingIncome" (by decide)
  have h10 := hv "NonOperatingIncome" (by decide)
  have h11 := hv "COGS" (by decide)
  have h12 := hv "SGA" (by decide)
  have h13 := hv "Depreciation" (by decide)
  have h14 := hv "InterestExp" (by decide)
  intro n hn
  fin_cases hn <;>
    first
      | (rw [total_leaf v _ (by decide)]; assumption)
      | (simp only [total_CurrentAssets, total_NonCurrentAssets, total_Assets,
          total_CurrentLiabilities, total_NonCurrentLiabilities, total_Liabilities,
          total_Income, total_Expenses, total_Equity]; omega)


/-! ### Concrete leaf snapshots used by the scenario claims -/

/-- The reference leaf assignment: every leaf holds its `LEAF_NODES` default
(the initial slider positions), every other name reads 0. -/
def baseAssign : String → ℤ := fun n => (LEAF_NODES.lookup n).getD 0

/-- The reference assignment with `PPE` raised from 40000 to 240000 and all
other leaves fixed. -/
def pertAssign : String → ℤ := fun n => if n = "PPE" then 240000 else baseAssign n

/-- A complete non-negative leaf snapshot in which only the liability leaf
`AP` is non-zero: every leaf is 0 except `AP = 100`. -/
def apOnlyAssign : String → ℤ := fun n => if n = "AP" then 100 else 0

/-! ### The engine entry point with input validation

The Dash callback itself always receives one value per slider, so the
snapshot-completeness check of the engine contract has no counterpart under
`src/`; it is modelled from the spec below. -/

/-- Modelled from the spec: the engine contract
`recompute(hierarchy, leaf_values) -> (derived_values, visual_weights)`
(spec section 4.2) and the `MissingLeafValueError` branch of section 7, both
absent from `app.py` (the Dash framework always supplies every slider value
positionally).  The snapshot is a partial map from account name to value;
if any leaf name has no value the call fails with the list of all missing
leaf names and produces no output; otherwise it returns the derived-value
map and the visual-weight map computed exactly as the callback computes
them. -/
def recompute (snapshot : String → Option ℤ) :
    Except (List String) (List (String × ℤ) × List (String × ℚ)) :=
  let missing := leafNames.filter fun n => (snapshot n).isNone
  if missing = [] then
    let v : String → ℤ := fun n => (snapshot n).getD 0
    Except.ok (computedVals v, accountNames.map fun n => (n, weight v n))
  else
    Except.error missing

/-! ### The callback as a transition on the module state

The mutable module-level data of app.py that `update_graph_and_totals`
reads are `LEAF_NODES`, `TREE`, `ROOTS` and the base stylesheet of the
`graph_panel` Cytoscape component; the callback copies the stylesheet
(`stylesheet = graph_panel.children[0].stylesheet[:]`, line 206) and appends
per-node size rules only to the copy, and assigns to no module-level name.
The state record below carries exactly those module-level values, and the
callback is embedded as an explicit state-passing function. -/

/-- A Cytoscape stylesheet rule: one of the eight fixed base rules (app.py
lines 139-156), or a per-node size rule appended by the callback (line 210). -/
inductive StyleRule where
  | base (selector : String)
  | nodeSize (selector : String) (size : ℚ)
deriving DecidableEq

/-- The base stylesheet of the `mindmap` Cytoscape component. -/
def baseStylesheet : List StyleRule :=
  [.base "node", .base ".center", .base ".asset", .base ".liability",
   .base ".equity", .base ".income", .base ".expense", .base "edge"]

/-- The module-level state read by the callback. -/
structure AppState where
  leafNodes : List (String × ℤ)
  tree : String → Option (List String)
  roots : List String
  sheet : List StyleRule

/-- The module state as built at import time. -/
def initialState : AppState :=
  { leafNodes := LEAF_NODES, tree := treeChildren, roots := ROOTS,
    sheet := baseStylesheet }

/-- `update_graph_and_totals` (app.py lines 181-213) as a state-passing
function: from the current module state and the leaf snapshot it returns the
(unchanged) module state together with the new stylesheet — the copied base
stylesheet followed by one fresh size rule per account, size
`30 + (v / max_val) * 70` — and the computed slider values.  The size is kept
as an exact rational; the f-string rounding to whole pixels is presentation
formatting. -/
def updateGraphAndTotals (st : AppState) (v : String → ℤ) :
    AppState × (List StyleRule × List (String × ℤ)) :=
  let sheet := st.sheet ++ accountNames.map fun n =>
    StyleRule.nodeSize ("node[id = " ++ n ++ "]") (30 + weight v n * 70)
  (st, (sheet, computedVals v))


/-- The value of every account is independent of what the snapshot reads at
the display-only name `Equation`: overriding `Equation` changes no total. -/
lemma totalAux_ignores_Equation (x : ℤ) :
    ∀ (m : ℕ) (v : String → ℤ) (node : String),
      totalAux m (fun n => if n = "Equation" then x else v n) node = totalAux m v node := by
  intro m
  induction m with
  | zero => intro v node; rfl
  | succ m ih =>
    intro v node
    simp only [totalAux]
    by_cases hleaf : node ∈ leafNames
    · rw [if_pos hleaf, if_pos hleaf]
      have hne : node ≠ "Equation" := fun h => absurd (h ▸ hleaf) (by decide)
      simp [hne]
    · rw [if_neg hleaf, if_neg hleaf]
      cases heq : treeChildren node with
      | some l =>
        simp only [heq]
        exact congrArg List.sum (List.map_congr_left fun ch _ => ih v ch)
      | none =>
        simp only [heq]
        by_cases he : node = "Equity"
        · rw [if_pos he, if_pos he, ih, ih, ih, ih]
        · rw [if_neg he, if_neg he]

/-- C1: for every complete assignment of leaf values and every Derived
account of the hierarchy, the recomputed value of the account equals the sum
of the recomputed values of its children; since this holds for every parent
of `TREE` it holds transitively at every depth of the forest. -/
theorem derived_value_eq_children_sum (v : String → ℤ) (p : String) (l : List String)
    (h : treeChildren p = some l) : total v p = (l.map (total v)).sum := by
  unfold treeChildren at h
  split_ifs at h with h1 h2 h3 h4 h5 h6 h7 h8 <;> injection h with h0
  all_goals subst h0
  · subst h1
    simp only [List.map_cons, List.map_nil, List.sum_cons, List.sum_nil,
      total_CurrentAssets, total_leaf v "Cash" (by decide), total_leaf v "AR" (by decide),
      total_leaf v "Inventory" (by decide)]
    ring
  · subst h2
    simp only [List.map_cons, List.map_nil, List.sum_cons, List.sum_nil,
      total_NonCurrentAssets, total_leaf v "PPE" (by decide),
      total_leaf v "Intangibles" (by decide)]
    ring
  · subst h3
    simp only [List.map_cons, List.map_nil, List.sum_cons, List.sum_nil,
      total_Assets, total_CurrentAssets, total_NonCurrentAssets]
    ring
  · subst h4
    simp only [List.map_cons, List.map_nil, List.sum_cons, List.sum_nil,
      total_CurrentLiabilities, total_leaf v "AP" (by decide),
      total_leaf v "NotesPayable" (by decide)]
    ring
  · subst h5
    simp only [List.map_cons, List.map_nil, List.sum_cons, List.sum_nil,
      total_NonCurrentLiabilities, total_leaf v "LongTermDebt" (by decide)]
    ring
  · subst h6
    simp only [List.map_cons, List.map_nil, List.sum_cons, List.sum_nil,
      total_Liabilities, total_CurrentLiabilities, total_NonCurrentLiabilities]
    ring
  · subst h7
    simp only [List.map_cons, List.map_nil, List.sum_cons, List.sum_nil,
      total_Income, total_leaf v "OperatingIncome" (by decide),
      total_leaf v "NonOperatingIncome" (by decide)]
    ring
  · subst h8
    simp only [List.map_cons, List.map_nil, List.sum_cons, List.sum_nil,
      total_Expenses, total_leaf v "COGS" (by decide), total_leaf v "SGA" (by decide),
      total_leaf v "Depreciation" (by decide), total_leaf v "InterestExp" (by decide)]
    ring

/-- Witness for C1 at the `Assets` parent and the reference assignment. -/
theorem derived_value_eq_children_sum_witness :
    treeChildren "Assets" = some ["CurrentAssets", "NonCurrentAssets"] ∧
      total baseAssign "Assets" =
        (["CurrentAssets", "NonCurrentAssets"].map (total baseAssign)).sum :=
  ⟨rfl, derived_value_eq_children_sum baseAssign "Assets" _ rfl⟩

/-- C2: the recomputed Balancing value satisfies
`Equity = Assets + Income - Expenses - Liabilities`, exactly, for every
complete leaf assignment, where the four branch-root totals come from the
same recomputation. -/
theorem equity_balancing_formula (v : String → ℤ) :
    total v "Equity" =
      total v "Assets" + total v "Income" - total v "Expenses" - total v "Liabilities" := by
  rw [total_Equity, total_Assets, total_Income, total_Expenses, total_Liabilities]

/-- C6: the recomputation is deterministic and stateless — running the
callback a second time on the state returned by a first call, with the
identical leaf snapshot, yields the identical stylesheet and the identical
derived-value map. -/
theorem recompute_deterministic (st : AppState) (v : String → ℤ) :
    (updateGraphAndTotals ((updateGraphAndTotals st v).1) v).2 =
      (updateGraphAndTotals st v).2 := rfl

/-- C9: the callback has no side effects: the module state (leaf defaults,
tree, roots, base stylesheet) is returned unchanged, and the stylesheet it
returns is the unchanged base stylesheet followed by fresh rules. -/
theorem recompute_frame (st : AppState) (v : String → ℤ) :
    (updateGraphAndTotals st v).1 = st ∧
      ∃ fresh, (updateGraphAndTotals st v).2.1 = st.sheet ++ fresh :=
  ⟨rfl, _, rfl⟩

/-- C8: the root synthesis node `Equation` is assigned no value in the
output maps (it is not an account name), is the child of no Derived account
so contributes to no Derived total and not to the normalization maximum
(which ranges over `accountNames` values only), and the totals — in
particular the balancing formula — are independent of any value stored
under `Equation`. -/
theorem equation_node_excluded :
    "Equation" ∉ accountNames ∧
      (∀ p l, treeChildren p = some l → "Equation" ∉ l) ∧
      (∀ (v : String → ℤ) (x : ℤ) (node : String),
        total (fun n => if n = "Equation" then x else v n) node = total v node) := by
  refine ⟨by decide, ?_, ?_⟩
  · intro p l h
    unfold treeChildren at h
    split_ifs at h with h1 h2 h3 h4 h5 h6 h7 h8 <;> injection h with h0
    all_goals subst h0
    all_goals decide
  · intro v x node
    exact totalAux_ignores_Equation x 4 v node

/-- Witness for C8 at the `Assets` parent. -/
theorem equation_node_excluded_witness :
    "Equation" ∉ ["CurrentAssets", "NonCurrentAssets"] :=
  equation_node_excluded.2.1 "Assets" _ rfl

/-- C10: the recursive roll-up terminates on the fixed hierarchy: the
fuel-indexed recursion has stabilized at depth 4, so for every leaf
assignment and every account name (including `Equity` and names absent from
the hierarchy) every fuel of at least 4 computes the same value `total`
returns. -/
theorem total_terminates (v : String → ℤ) (node : String) (m : ℕ) (hm : 4 ≤ m) :
    totalAux m v node = total v node :=
  totalAux_stable v node m hm

/-- Witness for C10 at fuel 9, the `Equity` account and the reference
assignment. -/
theorem total_terminates_witness :
    4 ≤ 9 ∧ totalAux 9 baseAssign "Equity" = total baseAssign "Equity" :=
  ⟨by decide, total_terminates baseAssign "Equity" 9 (by decide)⟩


/-- A snapshot that omits the leaf `Cash` and supplies every other name. -/
def missingSnap : String → Option ℤ := fun n => if n = "Cash" then none else some 0

/-- C3: a leaf snapshot that omits at least one leaf is rejected: `recompute`
fails with the list of exactly the missing leaf names (non-empty), and
produces no derived-value map and no visual-weight map. -/
theorem missing_leaf_rejected (s : String → Option ℤ)
    (h : ∃ n ∈ leafNames, s n = none) :
    ∃ missing, recompute s = Except.error missing ∧ missing ≠ [] ∧
      (∀ n, n ∈ missing ↔ n ∈ leafNames ∧ s n = none) ∧
      ∀ out, recompute s ≠ Except.ok out := by
  obtain ⟨n0, hn0, hs0⟩ := h
  have hmem : n0 ∈ leafNames.filter fun n => (s n).isNone := by
    rw [List.mem_filter]
    exact ⟨hn0, by rw [hs0]; rfl⟩
  have hne : (leafNames.filter fun n => (s n).isNone) ≠ [] := by
    intro hc
    rw [hc] at hmem
    cases hmem
  have herr : recompute s = Except.error (leafNames.filter fun n => (s n).isNone) := by
    simp only [recompute]
    rw [if_neg hne]
  refine ⟨_, herr, hne, ?_, ?_⟩
  · intro n
    rw [List.mem_filter]
    constructor
    · rintro ⟨h1, h2⟩
      exact ⟨h1, Option.isNone_iff_eq_none.1 h2⟩
    · rintro ⟨h1, h2⟩
      exact ⟨h1, by rw [h2]; rfl⟩
  · intro out hc
    rw [herr] at hc
    cases hc

/-- Witness for C3 at the snapshot omitting `Cash`. -/
theorem missing_leaf_rejected_witness :
    (∃ n ∈ leafNames, missingSnap n = none) ∧
      ∃ missing, recompute missingSnap = Except.error missing ∧ missing ≠ [] ∧
        (∀ n, n ∈ missing ↔ n ∈ leafNames ∧ missingSnap n = none) ∧
        ∀ out, recompute missingSnap ≠ Except.ok out :=
  ⟨⟨"Cash", by decide, by decide⟩,
    missing_leaf_rejected missingSnap ⟨"Cash", by decide, by decide⟩⟩

/-- C7: for every complete (non-negative) leaf assignment the normalization
divisor equals `max(1, maximum over all leaf and derived values including
Equity)`; in particular it is 1 when every value is 0, so the weight
computation never divides by zero. -/
theorem normalization_divisor_floor (v : String → ℤ) (hv : ∀ n ∈ leafNames, 0 ≤ v n) :
    maxVal v = max 1 (pyMax (allValues v)) := by
  have hcash : v "Cash" ∈ allValues v :=
    (mem_allValues v _).2 ⟨"Cash", by decide, total_leaf v "Cash" (by decide)⟩
  have h0 : (0 : ℤ) ≤ pyMax (allValues v) :=
    le_trans (hv "Cash" (by decide)) (le_pyMax _ _ hcash)
  unfold maxVal
  split_ifs with h
  · rw [h]
    decide
  · rw [max_eq_right (by omega)]

/-- Witness for C7 at the reference assignment. -/
theorem normalization_divisor_floor_witness :
    (∀ n ∈ leafNames, 0 ≤ baseAssign n) ∧
      maxVal baseAssign = max 1 (pyMax (allValues baseAssign)) :=
  ⟨by decide, normalization_divisor_floor baseAssign (by decide)⟩


/-- Counterexample to C4 as stated: the complete, non-negative leaf snapshot
in which only `AP = 100` gives the Balancing account the value
`Equity = -100` while the maximum value is 100, so Equity's normalized
weight is -1, outside `[0, 1]` (the code applies no clamp). -/
theorem weight_bounds_counterexample :
    (∀ n ∈ leafNames, 0 ≤ apOnlyAssign n) ∧ weight apOnlyAssign "Equity" < 0 := by
  refine ⟨by decide, ?_⟩
  have h1 : total apOnlyAssign "Equity" = -100 := by decide
  have h2 : maxVal apOnlyAssign = 100 := by decide
  unfold weight
  rw [h1, h2]
  norm_num

/-- C4 as amended: provided every recomputed value is non-negative (with
non-negative leaves that reduces to `Equity >= 0`), every account's weight
lies in `[0, 1]`; when the maximum value is non-zero some account attains it
and has weight exactly 1; and when every leaf is 0 every weight is 0 (no
division-by-zero failure). -/
theorem weight_bounds_amended (v : String → ℤ) (hv : ∀ n ∈ leafNames, 0 ≤ v n)
    (he : 0 ≤ total v "Equity") :
    (∀ n ∈ accountNames, 0 ≤ weight v n ∧ weight v n ≤ 1) ∧
      (pyMax (allValues v) ≠ 0 →
        ∃ n ∈ accountNames, total v n = pyMax (allValues v) ∧ weight v n = 1) ∧
      ((∀ n ∈ leafNames, v n = 0) → ∀ n ∈ accountNames, weight v n = 0) := by
  have hnn := total_nonneg v hv he
  have hle : ∀ n ∈ accountNames, total v n ≤ pyMax (allValues v) := fun n hn =>
    le_pyMax _ _ ((mem_allValues v _).2 ⟨n, hn, rfl⟩)
  have hMmem := (mem_allValues v _).1 (pyMax_mem (allValues v) (allValues_ne_nil v))
  have hM0 : 0 ≤ pyMax (allValues v) := by
    obtain ⟨n, hn, hvn⟩ := hMmem
    rw [← hvn]
    exact hnn n hn
  by_cases hz : pyMax (allValues v) = 0
  · have hone : maxVal v = 1 := by
      unfold maxVal
      rw [if_pos hz]
    have hzero : ∀ n ∈ accountNames, total v n = 0 := fun n hn =>
      le_antisymm (hz ▸ hle n hn) (hnn n hn)
    refine ⟨?_, fun hc => absurd hz hc, ?_⟩
    · intro n hn
      unfold weight
      rw [hone, hzero n hn]
      norm_num
    · intro _ n hn
      unfold weight
      rw [hone, hzero n hn]
      norm_num
  · have hM1 : (1 : ℤ) ≤ pyMax (allValues v) := by omega
    have hmv : maxVal v = pyMax (allValues v) := by
      unfold maxVal
      rw [if_neg hz]
    have hpos : (0 : ℚ) < (maxVal v : ℚ) := by
      rw [hmv]
      exact_mod_cast (by omega : (0 : ℤ) < pyMax (allValues v))
    refine ⟨?_, ?_, ?_⟩
    · intro n hn
      unfold weight
      constructor
      · exact div_nonneg (by exact_mod_cast hnn n hn) (le_of_lt hpos)
      · rw [div_le_one hpos, hmv]
        exact_mod_cast hle n hn
    · intro _
      obtain ⟨n, hn, heq⟩ := hMmem
      refine ⟨n, hn, heq, ?_⟩
      unfold weight
      rw [heq, hmv]
      exact div_self (by exact_mod_cast (by omega : pyMax (allValues v) ≠ 0))
    · intro hzero n hn
      exact absurd (by
        obtain ⟨n', hn', heq⟩ := hMmem
        rw [← heq]
        exact total_zero v hzero n' hn') hz

/-- Witness for C4's amended theorem at the reference assignment: the `PPE`
weight is within bounds. -/
theorem weight_bounds_amended_witness :
    0 ≤ weight baseAssign "PPE" ∧ weight baseAssign "PPE" ≤ 1 :=
  (weight_bounds_amended baseAssign (by decide) (by decide)).1 "PPE" (by decide)


/-- Counterexample to C5 as stated: after raising `PPE` to 240000 the
maximum value is `Assets = 275000`, not `PPE = 240000`, so `PPE`'s weight is
48/55, not 1. -/
theorem ppe_scenario_counterexample : weight pertAssign "PPE" ≠ 1 := by
  have h1 : total pertAssign "PPE" = 240000 := by decide
  have h2 : maxVal pertAssign = 275000 := by decide
  unfold weight
  rw [h1, h2]
  norm_num

/-- C5 as amended: raising `PPE` from 40000 to 240000 with the other leaves
at their reference values raises `NonCurrentAssets`, `Assets` and `Equity`
by 200000 each; the new maximum is `Assets = 275000`, whose weight is 1,
while `PPE`'s weight becomes 48/55; and every account whose value is
unchanged has a strictly smaller weight than before, proportionally to the
new maximum. -/
theorem ppe_scenario_amended :
    total pertAssign "NonCurrentAssets" - total baseAssign "NonCurrentAssets" = 200000 ∧
      total pertAssign "Assets" - total baseAssign "Assets" = 200000 ∧
      total pertAssign "Equity" - total baseAssign "Equity" = 200000 ∧
      total pertAssign "PPE" = 240000 ∧
      pyMax (allValues pertAssign) = total pertAssign "Assets" ∧
      weight pertAssign "Assets" = 1 ∧
      weight pertAssign "PPE" = 48 / 55 ∧
      ∀ n ∈ accountNames,
        total pertAssign n = total baseAssign n → weight pertAssign n < weight baseAssign n := by
  have hmp : maxVal pertAssign = 275000 := by decide
  have hmb : maxVal baseAssign = 75000 := by decide
  refine ⟨by decide, by decide, by decide, by decide, by decide, ?_, ?_, ?_⟩
  · have h1 : total pertAssign "Assets" = 275000 := by decide
    unfold weight
    rw [h1, hmp]
    norm_num
  · have h1 : total pertAssign "PPE" = 240000 := by decide
    unfold weight
    rw [h1, hmp]
    norm_num
  · intro n hn heqv
    have hpos : 0 < total baseAssign n := by fin_cases hn <;> decide
    have hposq : (0 : ℚ) < (total baseAssign n : ℚ) := by exact_mod_cast hpos
    unfold weight
    rw [heqv, hmp, hmb]
    rw [div_lt_div_iff₀ (by norm_num) (by norm_num)]
    have h75 : ((75000 : ℤ) : ℚ) < ((275000 : ℤ) : ℚ) := by norm_num
    calc (total baseAssign n : ℚ) * ((75000 : ℤ) : ℚ)
        < (total baseAssign n : ℚ) * ((275000 : ℤ) : ℚ) :=
          mul_lt_mul_of_pos_left h75 hposq
      _ = _ := rfl

/-- Witness for C5's amended theorem at the unchanged account `Cash`. -/
theorem ppe_scenario_amended_witness :
    weight pertAssign "Cash" < weight baseAssign "Cash" :=
  ppe_scenario_amended.2.2.2.2.2.2.2 "Cash" (by decide) (by decide)

end AIMSharing
